import Mathlib

/-!
Shallow embedding of the log4cplus hierarchical logging core
(`src/log4cplus/include/log4cplus/logger.h` and the behaviour its
specification assigns to the declared operations).

Dotted logger names such as `"a.b.c"` are embedded as their component
lists `["a", "b", "c"]` (type `LName`); the root logger is a separate
node that is not addressed by a dotted name.  Sinks (appenders) are
values carrying an instance id, an optional name, and a flag saying
whether their `write` reports failure.  Observable effects of a log
call (events built, sink writes, failures reported to the diagnostic
channel, errors propagated to the caller) are collected in a
`LogOutcome` record.
-/

namespace Log4cplus

/-- A dotted logger name, embedded as its list of dot-separated components. -/
abbrev LName := List String

/-- Severity scale.  Modelled from the spec: totally ordered
TRACE < DEBUG < INFO < WARN < ERROR < FATAL, plus OFF (nothing enabled)
and UNSET (no explicit threshold); `loglevel.h` is not under `src/`. -/
inductive LogLevel
  | unset
  | trace
  | debug
  | info
  | warn
  | error
  | fatal
  | off
deriving DecidableEq, Repr

/-- Numeric rank underlying the severity order. -/
def LogLevel.toNat : LogLevel → Nat
  | .unset => 0
  | .trace => 1
  | .debug => 2
  | .info => 3
  | .warn => 4
  | .error => 5
  | .fatal => 6
  | .off => 7

/-- Modelled from the spec: `isAtLeast(a, b)` compares severities by rank. -/
def isAtLeast (a b : LogLevel) : Bool := b.toNat ≤ a.toNat

/-- A sink (appender): an opaque instance id, an optional registration
name, and whether its `write` reports failure.  The sink interface is
external to this core; only identity and the write outcome matter here. -/
structure Sink where
  sid : Nat
  sname : Option String := none
  writeFails : Bool := false
deriving DecidableEq, Repr

/-- Sink registration identity: by name if named, by instance otherwise. -/
def Sink.identKey (s : Sink) : String ⊕ Nat :=
  match s.sname with
  | some x => Sum.inl x
  | none => Sum.inr s.sid

/-- Two sinks have the same registration identity. -/
def Sink.sameId (a b : Sink) : Bool := a.identKey = b.identKey

/-- One hierarchy node: instance id, dotted name, parent name (none for
children of the root), explicit severity (possibly UNSET), additivity
flag, and the ordered sink list. -/
structure LoggerNode where
  nid : Nat
  name : LName
  parent : Option LName
  level : LogLevel
  additive : Bool
  sinks : List Sink
deriving DecidableEq, Repr

/-- The hierarchy registry: the root node (not in the name map), the
name-keyed node map in creation order, and a fresh-id counter. -/
structure Hierarchy where
  root : LoggerNode
  nodes : List (LName × LoggerNode)
  fresh : Nat
deriving DecidableEq, Repr

/-- Look a dotted name up in the node map. -/
def Hierarchy.lookup (h : Hierarchy) (n : LName) : Option LoggerNode :=
  (h.nodes.find? (fun p => p.1 = n)).map (fun p => p.2)

/-- `Logger::exists`: true iff a node for that exact name has been created
(the root is not included). -/
def Hierarchy.existsLogger (h : Hierarchy) (n : LName) : Bool :=
  (h.lookup n).isSome

/-- Explicit severity of the named node; a missing node has no explicit
severity. -/
def levelOf (h : Hierarchy) (n : LName) : LogLevel :=
  match h.lookup n with
  | some v => v.level
  | none => .unset

/-- Additivity flag of the named node (new nodes default to additive). -/
def additivityOf (h : Hierarchy) (n : LName) : Bool :=
  match h.lookup n with
  | some v => v.additive
  | none => true

/-- Sink list of the named node. -/
def sinksOf (h : Hierarchy) (n : LName) : List Sink :=
  match h.lookup n with
  | some v => v.sinks
  | none => []

/-- Longest strict dot-prefix of a dotted name: drop the final component;
single-component names are children of the root. -/
def parentName (n : LName) : Option LName :=
  if n.length ≤ 1 then none else some n.dropLast

/-- All dotted prefixes of a name, shortest first, the name itself last:
the creation path of `getInstance`. -/
def namePath (n : LName) : List LName :=
  (List.range n.length).map (fun k => n.take (k + 1))

/-- A freshly created node: UNSET severity, additive, no sinks, parent
the longest strict dot-prefix. -/
def mkNode (nid : Nat) (n : LName) : LoggerNode :=
  { nid := nid, name := n, parent := parentName n,
    level := .unset, additive := true, sinks := [] }

/-- Modelled from the spec: one step of `getInstance` creation — ensure a
single name has a node, creating it with a fresh id if missing
(`Hierarchy` and `getInstance` bodies are not under `src/`). -/
def ensureOne (h : Hierarchy) (n : LName) : Hierarchy :=
  if h.existsLogger n then h
  else { h with nodes := h.nodes ++ [(n, mkNode h.fresh n)], fresh := h.fresh + 1 }

/-- Modelled from the spec: `Logger::getInstance` — return the existing
node for the name, otherwise create it and every missing ancestor along
the dotted-name path, then return the requested node. -/
def Hierarchy.getInstance (h : Hierarchy) (n : LName) : LoggerNode × Hierarchy :=
  let h2 := (namePath n).foldl ensureOne h
  ((h2.lookup n).getD h2.root, h2)

/-- `Logger::getRoot`: the root node of the hierarchy. -/
def Hierarchy.getRoot (h : Hierarchy) : LoggerNode := h.root

/-- Chained-level walk over the reversed component list: the current
node's name is the reverse of the argument; step to the parent by
dropping the head; the empty list is the root. -/
def chainAux (h : Hierarchy) : List String → LogLevel
  | [] => h.root.level
  | c :: rest =>
    let l := levelOf h ((c :: rest).reverse)
    if l = .unset then chainAux h rest else l

/-- Modelled from the spec: `Logger::getChainedLogLevel` — walk this node,
then parent, …, until a non-UNSET severity is found, else the root's
severity (the implementation is not under `src/`). -/
def Hierarchy.getChainedLogLevel (h : Hierarchy) (n : LName) : LogLevel :=
  chainAux h n.reverse

/-- Modelled from the spec: `Logger::isEnabledFor` —
`level != OFF && isAtLeast(level, getEffectiveLevel())`. -/
def Hierarchy.isEnabledFor (h : Hierarchy) (n : LName) (ll : LogLevel) : Bool :=
  (ll ≠ LogLevel.off) && isAtLeast ll (h.getChainedLogLevel n)

/-- Dispatch walk over the reversed component list: invoke the current
node's sinks; stop if it is non-additive, otherwise continue to the
parent; the empty list is the root, which ends the walk. -/
def collectAux (h : Hierarchy) : List String → List Sink
  | [] => h.root.sinks
  | c :: rest =>
    if additivityOf h ((c :: rest).reverse) then
      sinksOf h ((c :: rest).reverse) ++ collectAux h rest
    else
      sinksOf h ((c :: rest).reverse)

/-- Modelled from the spec: the fan-out of `Logger::callAppenders` — the
sinks invoked, in order, when an event is dispatched from the named node
(the implementation is not under `src/`). -/
def Hierarchy.dispatchSinks (h : Hierarchy) (n : LName) : List Sink :=
  collectAux h n.reverse

/-- An immutable logging event, built only after an enablement check. -/
structure LogEvent where
  level : LogLevel
  message : String
  loggerName : LName
deriving DecidableEq, Repr

/-- Observable outcome of a logging operation: resulting hierarchy
state, events constructed, sinks whose `write` was invoked (in order),
sink failures surfaced on the diagnostic side channel, and any error
propagated to the caller. -/
structure LogOutcome where
  state : Hierarchy
  events : List LogEvent
  writes : List Sink
  failures : List Sink
  callerError : Option String
deriving DecidableEq, Repr

/-- The outcome of an operation that does nothing observable. -/
def noOutcome (h : Hierarchy) : LogOutcome :=
  { state := h, events := [], writes := [], failures := [], callerError := none }

/-- Modelled from the spec: `Logger::forcedLog` — build the event and
dispatch it without an enablement check; a failing sink is reported on
the diagnostic channel, the walk continues, and no error reaches the
caller (the implementation is not under `src/`). -/
def Hierarchy.forcedLog (h : Hierarchy) (n : LName) (ll : LogLevel) (msg : String) :
    LogOutcome :=
  let fan := h.dispatchSinks n
  { state := h,
    events := [{ level := ll, message := msg, loggerName := n }],
    writes := fan,
    failures := fan.filter (fun s => s.writeFails),
    callerError := none }

/-- Modelled from the spec: `Logger::log` — return immediately when the
level is not enabled (no event built, no sink invoked), otherwise behave
as `forcedLog` (the implementation is not under `src/`). -/
def Hierarchy.log (h : Hierarchy) (n : LName) (ll : LogLevel) (msg : String) :
    LogOutcome :=
  if h.isEnabledFor n ll then h.forcedLog n ll msg else noOutcome h

/-- `Logger::assertion`, embedded from its body in `logger.h`:
`if(!assertionVal) { log(FATAL_LOG_LEVEL, msg); }`. -/
def Hierarchy.assertion (h : Hierarchy) (n : LName) (assertionVal : Bool)
    (msg : String) : LogOutcome :=
  if !assertionVal then h.log n LogLevel.fatal msg else noOutcome h

/-- Modelled from the spec: `Logger::addAppender` — append the sink at
the end; a sink with the same identity (by name, if named) is first
removed (the implementation is not under `src/`). -/
def LoggerNode.addAppender (v : LoggerNode) (s : Sink) : LoggerNode :=
  { v with sinks := v.sinks.filter (fun t => !(t.sameId s)) ++ [s] }

/-- A node with its sink list closed and cleared. -/
def LoggerNode.clearAppenders (v : LoggerNode) : LoggerNode :=
  { v with sinks := [] }

/-- Every sink attachment in the hierarchy (root included), with
multiplicity. -/
def Hierarchy.allSinks (h : Hierarchy) : List Sink :=
  h.root.sinks ++ (h.nodes.map (fun p => p.2.sinks)).flatten

/-- Modelled from the spec: `Logger::shutdown` — close every distinct
reachable sink exactly once (de-duplicating by sink identity) and clear
every node's sink list; returns the new state and the list of sinks on
which `close()` is invoked (the implementation is not under `src/`). -/
def Hierarchy.shutdown (h : Hierarchy) : Hierarchy × List Sink :=
  ({ h with root := h.root.clearAppenders,
            nodes := h.nodes.map (fun p => (p.1, p.2.clearAppenders)) },
   h.allSinks.dedup)

/-- Apply a node transformation at one name of the map. -/
def Hierarchy.updateNode (h : Hierarchy) (n : LName) (f : LoggerNode → LoggerNode) :
    Hierarchy :=
  { h with nodes := h.nodes.map (fun p => if p.1 = n then (p.1, f p.2) else p) }

/-- `Logger::setLogLevel` on the named node. -/
def Hierarchy.setLogLevel (h : Hierarchy) (n : LName) (ll : LogLevel) : Hierarchy :=
  h.updateNode n (fun v => { v with level := ll })

/-- `Logger::setAdditivity` on the named node. -/
def Hierarchy.setAdditivity (h : Hierarchy) (n : LName) (b : Bool) : Hierarchy :=
  h.updateNode n (fun v => { v with additive := b })

/-- `Logger::addAppender` on the named node of the hierarchy. -/
def Hierarchy.addAppenderTo (h : Hierarchy) (n : LName) (s : Sink) : Hierarchy :=
  h.updateNode n (fun v => v.addAppender s)

/-- A fresh default hierarchy: only the root, whose severity is the
configured DEBUG baseline and is never UNSET. -/
def initialHierarchy : Hierarchy :=
  { root := { nid := 0, name := ["root"], parent := none,
              level := .debug, additive := true, sinks := [] },
    nodes := [], fresh := 1 }

/-- Registry well-formedness: the root has instance id 0, name `root`
and a non-UNSET severity; the fresh counter is positive; every mapped
node is keyed by its own name, has the longest strict dot-prefix as its
parent, and has a nonzero instance id. -/
def Hierarchy.WF (h : Hierarchy) : Prop :=
  h.root.nid = 0 ∧ h.root.name = ["root"] ∧ h.root.level ≠ LogLevel.unset ∧
  1 ≤ h.fresh ∧
  ∀ p ∈ h.nodes, p.2.name = p.1 ∧ p.2.parent = parentName p.1 ∧ p.2.nid ≠ 0

/- Concrete hierarchies and sinks used to evaluate the theorems. -/

/-- Child `a.b` with explicit INFO under parent `a` with explicit ERROR. -/
def WH1 : Hierarchy :=
  (((initialHierarchy.getInstance ["a", "b"]).2).setLogLevel ["a"]
      LogLevel.error).setLogLevel ["a", "b"] LogLevel.info

/-- An unnamed sink used in the dispatch scenario. -/
def WD1 : Sink := { sid := 1 }

/-- A second unnamed sink used in the dispatch scenario. -/
def WD2 : Sink := { sid := 2 }

/-- A third unnamed sink attached only to the grandparent. -/
def WD3 : Sink := { sid := 3 }

/-- Node `g.p.x` (additive) with `WD1`, non-additive parent `g.p` with
`WD2`, grandparent `g` with `WD3`. -/
def WDH : Hierarchy :=
  (((((initialHierarchy.getInstance ["g", "p", "x"]).2).addAppenderTo
      ["g", "p", "x"] WD1).addAppenderTo ["g", "p"] WD2).addAppenderTo
      ["g"] WD3).setAdditivity ["g", "p"] false

/-- A sink shared by two nodes. -/
def WS1 : Sink := { sid := 11 }

/-- A sink attached to a single node. -/
def WS2 : Sink := { sid := 12 }

/-- Two sibling nodes; `WS1` is attached to both, `WS2` to one. -/
def WSH : Hierarchy :=
  ((((((initialHierarchy.getInstance ["s1"]).2).getInstance ["s2"]).2).addAppenderTo
      ["s1"] WS1).addAppenderTo ["s2"] WS1).addAppenderTo ["s1"] WS2

/-- A sink whose write succeeds. -/
def WFA : Sink := { sid := 21 }

/-- A sink whose write reports failure. -/
def WFB : Sink := { sid := 22, writeFails := true }

/-- A node carrying one healthy and one failing sink. -/
def WFH : Hierarchy :=
  (((initialHierarchy.getInstance ["x"]).2).addAppenderTo ["x"] WFA).addAppenderTo
      ["x"] WFB

/-- A named sink being (re-)registered. -/
def W8s : Sink := { sid := 31, sname := some "A" }

/-- An older sink with the same registration name as `W8s`. -/
def W8old : Sink := { sid := 30, sname := some "A" }

/-- An unrelated unnamed sink. -/
def W8other : Sink := { sid := 32 }

/-- A non-additive node already holding `W8old` and `W8other`. -/
def W8v : LoggerNode :=
  { nid := 5, name := ["x"], parent := none, level := LogLevel.unset,
    additive := false, sinks := [W8old, W8other] }

/-- A hierarchy whose node `x` is `W8v` after re-adding `W8s`. -/
def W8H : Hierarchy :=
  { root := initialHierarchy.root,
    nodes := [(["x"], W8v.addAppender W8s)], fresh := 6 }

/- ------------------------------------------------------------------ -/
/- Registry lemmas                                                     -/
/- ------------------------------------------------------------------ -/

theorem lookup_ensureOne_of_some {h : Hierarchy} {m : LName} {v : LoggerNode}
    (hm : h.lookup m = some v) (q : LName) :
    (ensureOne h q).lookup m = some v := by
  unfold ensureOne
  split
  · exact hm
  · unfold Hierarchy.lookup at hm ⊢
    obtain ⟨pr, hpr, hv⟩ := Option.map_eq_some'.mp hm
    simp [List.find?_append, hpr, hv]

theorem lookup_ensureOne_self (h : Hierarchy) (q : LName) :
    ((ensureOne h q).lookup q).isSome := by
  unfold ensureOne
  split
  · next he => simpa [Hierarchy.existsLogger] using he
  · next he =>
    have hnone : h.nodes.find? (fun p => p.1 = q) = none := by
      unfold Hierarchy.existsLogger Hierarchy.lookup at he
      rcases hf : h.nodes.find? (fun p => p.1 = q) with _ | pr
      · exact hf
      · exact absurd (by simp [hf]) he
    simp [Hierarchy.lookup, List.find?_append, hnone]

theorem lookup_foldl_of_some {m : LName} {v : LoggerNode} :
    ∀ (path : List LName) (h : Hierarchy), h.lookup m = some v →
      (path.foldl ensureOne h).lookup m = some v := by
  intro path
  induction path with
  | nil => intro h hm; exact hm
  | cons q rest ih =>
    intro h hm
    exact ih (ensureOne h q) (lookup_ensureOne_of_some hm q)

theorem lookup_foldl_mem {m : LName} :
    ∀ (path : List LName) (h : Hierarchy), m ∈ path →
      ((path.foldl ensureOne h).lookup m).isSome := by
  intro path
  induction path with
  | nil => intro h hm; cases hm
  | cons q rest ih =>
    intro h hm
    rcases List.mem_cons.mp hm with rfl | hmem
    · obtain ⟨v, hv⟩ := Option.isSome_iff_exists.mp (lookup_ensureOne_self h m)
      simpa using Option.isSome_iff_exists.mpr ⟨v, lookup_foldl_of_some rest _ hv⟩
    · exact ih (ensureOne h q) hmem

theorem ensureOne_of_exists {h : Hierarchy} {q : LName}
    (he : h.existsLogger q = true) : ensureOne h q = h := by
  simp [ensureOne, he]

theorem foldl_ensureOne_of_all_exists :
    ∀ (path : List LName) (h : Hierarchy),
      (∀ q ∈ path, h.existsLogger q = true) → path.foldl ensureOne h = h := by
  intro path
  induction path with
  | nil => intro h _; rfl
  | cons q rest ih =>
    intro h hall
    rw [List.foldl_cons, ensureOne_of_exists (hall q (List.mem_cons_self q rest))]
    exact ih h (fun r hr => hall r (List.mem_cons_of_mem q hr))

theorem WF_ensureOne {h : Hierarchy} (hwf : h.WF) (q : LName) :
    (ensureOne h q).WF := by
  unfold ensureOne
  split
  · exact hwf
  · obtain ⟨h0, h1, h2, h3, h4⟩ := hwf
    refine ⟨h0, h1, h2, Nat.le_succ_of_le h3, ?_⟩
    intro p hp
    rcases List.mem_append.mp hp with hmem | hmem
    · exact h4 p hmem
    · rcases List.mem_singleton.mp hmem with rfl
      exact ⟨rfl, rfl, Nat.pos_iff_ne_zero.mp h3⟩

theorem WF_foldl_ensureOne :
    ∀ (path : List LName) (h : Hierarchy), h.WF → (path.foldl ensureOne h).WF := by
  intro path
  induction path with
  | nil => intro h hwf; exact hwf
  | cons q rest ih => intro h hwf; exact ih (ensureOne h q) (WF_ensureOne hwf q)

theorem lookup_props_of_WF {h : Hierarchy} (hwf : h.WF) {n : LName}
    {v : LoggerNode} (hl : h.lookup n = some v) :
    v.name = n ∧ v.parent = parentName n ∧ v.nid ≠ 0 := by
  unfold Hierarchy.lookup at hl
  obtain ⟨pr, hpr, hv⟩ := Option.map_eq_some'.mp hl
  have hkey : pr.1 = n := by
    have := List.find?_some hpr
    simpa using this
  have hmem := List.mem_of_find?_eq_some hpr
  obtain ⟨-, -, -, -, h4⟩ := hwf
  obtain ⟨ha, hb, hc⟩ := h4 pr hmem
  subst hv
  exact ⟨hkey ▸ ha, hkey ▸ hb, hc⟩

theorem mem_namePath_of_ne_nil_of_IsPrefix {q n : LName} (hq : q ≠ [])
    (hpre : q <+: n) : q ∈ namePath n := by
  have htake : q = n.take q.length := List.prefix_iff_eq_take.mp hpre
  have hle : q.length ≤ n.length := hpre.length_le
  have hpos : 0 < q.length := List.length_pos.mpr hq
  unfold namePath
  refine List.mem_map.mpr ⟨q.length - 1, List.mem_range.mpr ?_, ?_⟩
  · omega
  · have : q.length - 1 + 1 = q.length := by omega
    rw [this, ← htake]

theorem self_mem_namePath {n : LName} (hn : n ≠ []) : n ∈ namePath n :=
  mem_namePath_of_ne_nil_of_IsPrefix hn (List.prefix_refl n)

theorem WF_getInstance {h : Hierarchy} (hwf : h.WF) (n : LName) :
    ((h.getInstance n).2).WF := by
  simpa [Hierarchy.getInstance] using WF_foldl_ensureOne (namePath n) h hwf

theorem getInstance_lookup_node (h : Hierarchy) {n : LName} (hn : n ≠ []) :
    ((h.getInstance n).2).lookup n = some ((h.getInstance n).1) := by
  obtain ⟨v, hv⟩ := Option.isSome_iff_exists.mp
    (lookup_foldl_mem (namePath n) h (self_mem_namePath hn))
  simp [Hierarchy.getInstance, hv]

/-- C4: For every name `n`, two calls `getInstance(n)` on the same
hierarchy return the same node identity: the second call returns the
node created (or found) by the first and creates nothing new — the
returned pair (node, hierarchy) of the second call equals that of the
first call, so the node map is unchanged. -/
theorem getInstance_idempotent (h : Hierarchy) (n : LName) :
    ((h.getInstance n).2).getInstance n = ((h.getInstance n).1, (h.getInstance n).2) := by
  have hall : ∀ q ∈ namePath n,
      ((namePath n).foldl ensureOne h).existsLogger q = true := by
    intro q hq
    simpa [Hierarchy.existsLogger] using lookup_foldl_mem (namePath n) h hq
  simp only [Hierarchy.getInstance]
  rw [foldl_ensureOne_of_all_exists (namePath n) _ hall]

/-- C5: `getInstance` materializes every missing ancestor along the
dotted-name path: after `getInstance n` every nonempty dot-prefix of
`n` exists (for `a.b.c`, both `a` and `a.b`), and every node of the
resulting registry is keyed by its own name with its parent the node
for the longest strict dot-prefix of its name (no level skipped). -/
theorem getInstance_materializes (h : Hierarchy) (n : LName) (hwf : h.WF) :
    (∀ q : LName, q ≠ [] → q <+: n →
      ((h.getInstance n).2).existsLogger q = true) ∧
    (∀ p ∈ ((h.getInstance n).2).nodes,
      p.2.name = p.1 ∧ p.2.parent = parentName p.1) := by
  constructor
  · intro q hq hpre
    have hmem := mem_namePath_of_ne_nil_of_IsPrefix hq hpre
    simpa [Hierarchy.getInstance, Hierarchy.existsLogger] using
      lookup_foldl_mem (namePath n) h hmem
  · intro p hp
    obtain ⟨-, -, -, -, h4⟩ := WF_getInstance hwf n
    exact ⟨(h4 p hp).1, (h4 p hp).2.1⟩

/-- C10: `getRoot()` returns the root logger, whose name is `root`, yet
for every nonempty name `n` — including `n = "root"` — `getInstance n`
returns a node distinct from the root (different instance id):
`getInstance "root"` yields an ordinary child of the root named `root`
(its parent is the root, encoded `none`), not the root itself. -/
theorem getRoot_vs_getInstance (h : Hierarchy) (hwf : h.WF) :
    h.getRoot = h.root ∧ h.getRoot.name = ["root"] ∧
    (∀ n : LName, n ≠ [] → ((h.getInstance n).1).nid ≠ h.getRoot.nid) ∧
    ((h.getInstance ["root"]).1).name = ["root"] ∧
    ((h.getInstance ["root"]).1).parent = none := by
  have hroot : ∀ n : LName, n ≠ [] →
      ((h.getInstance n).1).name = n ∧
      ((h.getInstance n).1).parent = parentName n ∧
      ((h.getInstance n).1).nid ≠ 0 := by
    intro n hn
    exact lookup_props_of_WF (WF_getInstance hwf n) (getInstance_lookup_node h hn)
  refine ⟨rfl, hwf.2.1, ?_, ?_, ?_⟩
  · intro n hn
    have := (hroot n hn).2.2
    unfold Hierarchy.getRoot
    rw [hwf.1]
    exact this
  · exact (hroot ["root"] (by simp)).1
  · rw [(hroot ["root"] (by simp)).2.1]; rfl

/- ------------------------------------------------------------------ -/
/- Chained-level and dispatch lemmas                                   -/
/- ------------------------------------------------------------------ -/

theorem chainAux_ne_unset {h : Hierarchy} (hroot : h.root.level ≠ LogLevel.unset) :
    ∀ rev : List String, chainAux h rev ≠ LogLevel.unset := by
  intro rev
  induction rev with
  | nil => exact hroot
  | cons c rest ih =>
    simp only [chainAux]
    split
    · exact ih
    · next hne => exact hne

theorem reverse_eq_cons_of_ne_nil {n : LName} (hn : n ≠ []) :
    ∃ d, n.reverse = d :: n.dropLast.reverse := by
  refine ⟨n.getLast hn, ?_⟩
  conv_lhs => rw [← List.dropLast_append_getLast hn]
  rw [List.reverse_append]
  rfl

theorem chainAux_all_unset {h : Hierarchy} :
    ∀ rev : List String,
      (∀ s : List String, s ≠ [] → s <:+ rev →
        levelOf h s.reverse = LogLevel.unset) →
      chainAux h rev = h.root.level := by
  intro rev
  induction rev with
  | nil => intro _; rfl
  | cons c rest ih =>
    intro hall
    have hself : levelOf h ((c :: rest).reverse) = LogLevel.unset :=
      hall (c :: rest) (by simp) (List.suffix_refl _)
    simp only [chainAux, hself, if_pos]
    exact ih (fun s hs hsuf => hall s hs (hsuf.trans (List.suffix_cons c rest)))

theorem parentName_eq_some {n p : LName} (hp : parentName n = some p) :
    p = n.dropLast ∧ n ≠ [] ∧ p ≠ [] := by
  unfold parentName at hp
  split at hp
  · cases hp
  · next hlen =>
    have hpd : p = n.dropLast := (Option.some_inj.mp hp).symm
    have hlen2 : 2 ≤ n.length := by omega
    refine ⟨hpd, ?_, ?_⟩
    · intro hnil
      rw [hnil] at hlen2
      simp at hlen2
    · intro hnil
      have hdl : n.dropLast.length = n.length - 1 := List.length_dropLast n
      rw [hpd] at hnil
      rw [hnil] at hdl
      simp at hdl
      omega

/-- C1: `getChainedLogLevel`/`getEffectiveLevel` returns the explicit
severity of the nearest ancestor-or-self whose severity is not UNSET:
a node with an explicit severity returns it (so INFO wins over a parent
with ERROR), a node with UNSET severity resolves as its parent does,
a node all of whose ancestors-or-self are UNSET returns the root's
severity, and with a non-UNSET root the walk never returns UNSET. -/
theorem getChainedLogLevel_nearest (h : Hierarchy) (n : LName) (hn : n ≠ [])
    (hroot : h.root.level ≠ LogLevel.unset) :
    h.getChainedLogLevel n ≠ LogLevel.unset ∧
    (levelOf h n ≠ LogLevel.unset → h.getChainedLogLevel n = levelOf h n) ∧
    (levelOf h n = LogLevel.unset → ∀ p, parentName n = some p →
      h.getChainedLogLevel n = h.getChainedLogLevel p) ∧
    ((∀ q : LName, q ≠ [] → q <+: n → levelOf h q = LogLevel.unset) →
      h.getChainedLogLevel n = h.root.level) := by
  obtain ⟨d, hrev⟩ := reverse_eq_cons_of_ne_nil hn
  have hrr : (d :: n.dropLast.reverse).reverse = n := by
    rw [← hrev, List.reverse_reverse]
  refine ⟨chainAux_ne_unset hroot _, ?_, ?_, ?_⟩
  · intro hset
    unfold Hierarchy.getChainedLogLevel
    rw [hrev]
    simp only [chainAux, hrr]
    rw [if_neg hset]
  · intro hunset p hp
    have hpd : p = n.dropLast := (parentName_eq_some hp).1
    unfold Hierarchy.getChainedLogLevel
    rw [hrev]
    simp only [chainAux, hrr]
    rw [if_pos hunset, hpd]
  · intro hall
    unfold Hierarchy.getChainedLogLevel
    apply chainAux_all_unset
    intro s hs hsuf
    apply hall s.reverse (by simpa using hs)
    have hss : s.reverse.reverse <:+ n.reverse := by
      rwa [List.reverse_reverse]
    exact List.reverse_suffix.mp hss

/-- C2: Dispatching an event from a node invokes, in insertion order,
the sinks of that node and then of each successive ancestor, stopping
at the first node whose additivity flag is false: for an additive node
with a non-additive parent the fan-out is exactly the node's sinks
followed by the parent's sinks, so no sink attached only to a
grandparent (or any farther ancestor, or the root) is ever invoked. -/
theorem callAppenders_additivity_stop (h : Hierarchy) (n p : LName)
    (hadd : additivityOf h n = true)
    (hp : parentName n = some p)
    (hpadd : additivityOf h p = false) :
    h.dispatchSinks n = sinksOf h n ++ sinksOf h p ∧
    (∀ s : Sink, s ∈ h.dispatchSinks n → s ∈ sinksOf h n ∨ s ∈ sinksOf h p) := by
  obtain ⟨hpd, hn, hpne⟩ := parentName_eq_some hp
  obtain ⟨d, hrev⟩ := reverse_eq_cons_of_ne_nil hn
  obtain ⟨e, hrevp⟩ := reverse_eq_cons_of_ne_nil hpne
  have hrev2 : n.reverse = d :: e :: p.dropLast.reverse := by
    rw [hrev, ← hpd, hrevp]
  have hrrn : (d :: e :: p.dropLast.reverse).reverse = n := by
    rw [← hrev2, List.reverse_reverse]
  have hrrp : (e :: p.dropLast.reverse).reverse = p := by
    rw [← hrevp, List.reverse_reverse]
  have hmain : h.dispatchSinks n = sinksOf h n ++ sinksOf h p := by
    unfold Hierarchy.dispatchSinks
    rw [hrev2]
    show (if additivityOf h ((d :: e :: p.dropLast.reverse).reverse) then
            sinksOf h ((d :: e :: p.dropLast.reverse).reverse) ++
              collectAux h (e :: p.dropLast.reverse)
          else sinksOf h ((d :: e :: p.dropLast.reverse).reverse)) =
      sinksOf h n ++ sinksOf h p
    rw [hrrn, hadd, if_pos rfl]
    show sinksOf h n ++
        (if additivityOf h ((e :: p.dropLast.reverse).reverse) then
           sinksOf h ((e :: p.dropLast.reverse).reverse) ++
             collectAux h p.dropLast.reverse
         else sinksOf h ((e :: p.dropLast.reverse).reverse)) =
      sinksOf h n ++ sinksOf h p
    rw [hrrp, hpadd]
    rfl
  refine ⟨hmain, ?_⟩
  intro s hs
  rw [hmain] at hs
  exact List.mem_append.mp hs

/- ------------------------------------------------------------------ -/
/- Shutdown, logging and appender-registration lemmas                  -/
/- ------------------------------------------------------------------ -/

theorem allSinks_shutdown (h : Hierarchy) : ((h.shutdown).1).allSinks = [] := by
  show [] ++ ((h.nodes.map (fun p => (p.1, p.2.clearAppenders))).map
      (fun p => p.2.sinks)).flatten = []
  rw [List.nil_append, List.map_map, List.flatten_eq_nil_iff]
  intro l hl
  obtain ⟨q, -, hq⟩ := List.mem_map.mp hl
  exact hq.symm

theorem shutdown_state_idem (h : Hierarchy) :
    ((h.shutdown).1).shutdown.1 = (h.shutdown).1 := by
  unfold Hierarchy.shutdown LoggerNode.clearAppenders
  simp [List.map_map, Function.comp]

/-- C3: Across any sequence of `shutdown()` calls, each distinct sink
instance is closed at most once in total: the close list of one
shutdown has no duplicate instances, a sink reachable from any node
(shared ones included) is closed exactly once, a second `shutdown()` is
the identity on the state and closes nothing, and after shutdown every
node's sink list (root included) is empty. -/
theorem shutdown_close_once (h : Hierarchy) :
    (h.shutdown).2.Nodup ∧
    (∀ s : Sink, s ∈ h.allSinks → (h.shutdown).2.count s = 1) ∧
    ((h.shutdown).1).shutdown = ((h.shutdown).1, []) ∧
    (h.shutdown).1.root.sinks = [] ∧
    (∀ p ∈ (h.shutdown).1.nodes, p.2.sinks = []) := by
  refine ⟨List.nodup_dedup _, ?_, ?_, rfl, ?_⟩
  · intro s hs
    exact List.count_eq_one_of_mem (List.nodup_dedup _) (List.mem_dedup.mpr hs)
  · have h2 : ((h.shutdown).1).shutdown.2 = [] := by
      show ((h.shutdown).1).allSinks.dedup = []
      rw [allSinks_shutdown h]
      rfl
    exact Prod.ext (shutdown_state_idem h) h2
  · intro p hp
    simp only [Hierarchy.shutdown, List.mem_map] at hp
    obtain ⟨q, -, hq⟩ := hp
    rw [← hq]
    rfl

/-- C6: When `isEnabledFor(level)` is false, `log(level, msg)` leaves
every observable state unchanged and performs no effects: the outcome is
the no-op outcome — the hierarchy (severities, additivity flags, sink
lists) is returned unchanged, zero sinks are written, and zero logging
events are constructed. -/
theorem log_disabled_no_effects (h : Hierarchy) (n : LName) (ll : LogLevel)
    (msg : String) (hdis : h.isEnabledFor n ll = false) :
    h.log n ll msg = noOutcome h ∧
    (h.log n ll msg).state = h ∧
    (h.log n ll msg).events = [] ∧
    (h.log n ll msg).writes = [] := by
  have hlog : h.log n ll msg = noOutcome h := by
    unfold Hierarchy.log
    rw [hdis]
    simp
  refine ⟨hlog, ?_, ?_, ?_⟩ <;> rw [hlog] <;> rfl

/-- C7: When some sink's `write` reports failure during a dispatch walk,
every sink in the fan-out still receives the event (the writes list is
the whole fan-out regardless of failure flags), and no sink error ever
propagates to the caller of `log` or `forcedLog` — their caller-error
channel is always empty. -/
theorem log_no_caller_error (h : Hierarchy) (n : LName) (ll : LogLevel)
    (msg : String) :
    (h.forcedLog n ll msg).callerError = none ∧
    (h.log n ll msg).callerError = none ∧
    (h.forcedLog n ll msg).writes = h.dispatchSinks n ∧
    (∀ s t : Sink, s ∈ h.dispatchSinks n → t ∈ h.dispatchSinks n →
      t.writeFails = true → s ∈ (h.forcedLog n ll msg).writes) := by
  refine ⟨rfl, ?_, rfl, ?_⟩
  · unfold Hierarchy.log
    split
    · rfl
    · rfl
  · intro s t hs _ _
    exact hs

theorem sameId_self (s : Sink) : s.sameId s = true := by
  simp [Sink.sameId]

/-- C8: Re-adding a sink that is already attached to a node (same
identity, by name if named) first removes the existing entry and
appends the sink at the end: after the add, exactly one sink of that
identity is in the node's ordered list, it is in last position, and a
dispatch whose fan-out is that node's list writes that identity exactly
once. -/
theorem addAppender_moves_to_end (v : LoggerNode) (s : Sink) :
    ((v.addAppender s).sinks.countP (fun t => t.sameId s)) = 1 ∧
    (v.addAppender s).sinks.getLast? = some s ∧
    (∀ (h : Hierarchy) (n : LName) (ll : LogLevel) (msg : String),
      h.lookup n = some (v.addAppender s) → v.additive = false → n ≠ [] →
      ((h.forcedLog n ll msg).writes.countP (fun t => t.sameId s)) = 1) := by
  have hcount : ((v.addAppender s).sinks.countP (fun t => t.sameId s)) = 1 := by
    unfold LoggerNode.addAppender
    rw [List.countP_append]
    have hz : (v.sinks.filter (fun t => !(t.sameId s))).countP
        (fun t => t.sameId s) = 0 := by
      rw [List.countP_eq_zero]
      intro a ha
      have hmemf := (List.mem_filter.mp ha).2
      simp only [Bool.not_eq_true'] at hmemf
      simp [hmemf]
    rw [hz]
    simp [sameId_self]
  refine ⟨hcount, ?_, ?_⟩
  · unfold LoggerNode.addAppender
    exact List.getLast?_concat _
  · intro h n ll msg hlk hna hn
    obtain ⟨d, hrev⟩ := reverse_eq_cons_of_ne_nil hn
    have hrr : (d :: n.dropLast.reverse).reverse = n := by
      rw [← hrev, List.reverse_reverse]
    have hwr : (h.forcedLog n ll msg).writes = h.dispatchSinks n := rfl
    have haddf : additivityOf h n = false := by
      unfold additivityOf
      rw [hlk]
      exact hna
    have hdisp : h.dispatchSinks n = (v.addAppender s).sinks := by
      unfold Hierarchy.dispatchSinks
      rw [hrev]
      show (if additivityOf h ((d :: n.dropLast.reverse).reverse) then
              sinksOf h ((d :: n.dropLast.reverse).reverse) ++
                collectAux h n.dropLast.reverse
            else sinksOf h ((d :: n.dropLast.reverse).reverse)) =
        (v.addAppender s).sinks
      rw [hrr, haddf]
      simp only [Bool.false_eq_true, if_false]
      unfold sinksOf
      rw [hlk]
    rw [hwr, hdisp]
    exact hcount

/-- C9: For every logger, message, and boolean `b`, `assertion(b, msg)`
is exactly `log(FATAL, msg)` when `b` is false, and a no-op when `b` is
true: no state change, no sink invocation, no event construction. -/
theorem assertion_iff_fatal_log (h : Hierarchy) (n : LName) (msg : String) :
    h.assertion n false msg = h.log n LogLevel.fatal msg ∧
    h.assertion n true msg = noOutcome h ∧
    (h.assertion n true msg).state = h ∧
    (h.assertion n true msg).events = [] ∧
    (h.assertion n true msg).writes = [] :=
  ⟨rfl, rfl, rfl, rfl, rfl⟩

/- ------------------------------------------------------------------ -/
/- Witnesses: the theorems evaluated at concrete inputs                -/
/- ------------------------------------------------------------------ -/

/-- Witness for C1: in `WH1` (child `a.b` INFO, parent `a` ERROR, root
DEBUG) the chained level of `a.b` is not UNSET and equals the child's
own explicit level. -/
theorem getChainedLogLevel_nearest_witness :
    WH1.root.level ≠ LogLevel.unset ∧
    WH1.getChainedLogLevel ["a", "b"] ≠ LogLevel.unset ∧
    WH1.getChainedLogLevel ["a", "b"] = levelOf WH1 ["a", "b"] :=
  ⟨by decide,
   (getChainedLogLevel_nearest WH1 ["a", "b"] (by decide) (by decide)).1,
   (getChainedLogLevel_nearest WH1 ["a", "b"] (by decide) (by decide)).2.1
     (by decide)⟩

/-- Witness for C2: in `WDH`, logging at `g.p.x` invokes exactly the
sinks of `g.p.x` then of the non-additive parent `g.p`. -/
theorem callAppenders_additivity_stop_witness :
    additivityOf WDH ["g", "p", "x"] = true ∧
    parentName ["g", "p", "x"] = some ["g", "p"] ∧
    additivityOf WDH ["g", "p"] = false ∧
    WDH.dispatchSinks ["g", "p", "x"] =
      sinksOf WDH ["g", "p", "x"] ++ sinksOf WDH ["g", "p"] :=
  ⟨by decide, by decide, by decide,
   (callAppenders_additivity_stop WDH ["g", "p", "x"] ["g", "p"]
     (by decide) (by decide) (by decide)).1⟩

/-- Witness for C3: in `WSH` the sink `WS1`, attached to two nodes, is
closed exactly once by `shutdown()`. -/
theorem shutdown_close_once_witness :
    WS1 ∈ WSH.allSinks ∧ (WSH.shutdown).2.count WS1 = 1 :=
  ⟨by decide, (shutdown_close_once WSH).2.1 WS1 (by decide)⟩

/-- Witness for C5: after `getInstance ["a","b","c"]` on the fresh
hierarchy, both `a` and `a.b` exist. -/
theorem getInstance_materializes_witness :
    initialHierarchy.WF ∧
    ((initialHierarchy.getInstance ["a", "b", "c"]).2).existsLogger ["a"] = true ∧
    ((initialHierarchy.getInstance ["a", "b", "c"]).2).existsLogger ["a", "b"] = true :=
  ⟨by unfold Hierarchy.WF; decide,
   (getInstance_materializes initialHierarchy ["a", "b", "c"]
     (by unfold Hierarchy.WF; decide)).1 ["a"] (by decide) (by decide),
   (getInstance_materializes initialHierarchy ["a", "b", "c"]
     (by unfold Hierarchy.WF; decide)).1 ["a", "b"] (by decide) (by decide)⟩

/-- Witness for C6: in `WH1`, DEBUG is not enabled at `a` (whose
effective level is ERROR), and logging DEBUG there is the no-op
outcome. -/
theorem log_disabled_no_effects_witness :
    WH1.isEnabledFor ["a"] LogLevel.debug = false ∧
    WH1.log ["a"] LogLevel.debug "m" = noOutcome WH1 :=
  ⟨by decide,
   (log_disabled_no_effects WH1 ["a"] LogLevel.debug "m" (by decide)).1⟩

/-- Witness for C7: in `WFH` the failing sink `WFB` is in the fan-out
of `x`, yet the healthy sink `WFA` still receives the event. -/
theorem log_no_caller_error_witness :
    WFA ∈ WFH.dispatchSinks ["x"] ∧ WFB ∈ WFH.dispatchSinks ["x"] ∧
    WFB.writeFails = true ∧
    WFA ∈ (WFH.forcedLog ["x"] LogLevel.warn "m").writes :=
  ⟨by decide, by decide, by decide,
   (log_no_caller_error WFH ["x"] LogLevel.warn "m").2.2.2 WFA WFB
     (by decide) (by decide) (by decide)⟩

/-- Witness for C8: re-adding the named sink `W8s` to `W8v` leaves one
sink of that name, and a dispatch from the node writes it exactly
once. -/
theorem addAppender_moves_to_end_witness :
    W8H.lookup ["x"] = some (W8v.addAppender W8s) ∧
    W8v.additive = false ∧
    ((W8v.addAppender W8s).sinks.countP (fun t => t.sameId W8s)) = 1 ∧
    ((W8H.forcedLog ["x"] LogLevel.info "m").writes.countP
      (fun t => t.sameId W8s)) = 1 :=
  ⟨by decide, by decide, (addAppender_moves_to_end W8v W8s).1,
   (addAppender_moves_to_end W8v W8s).2.2 W8H ["x"] LogLevel.info "m"
     (by decide) (by decide) (by decide)⟩

/-- Witness for C10: on the fresh hierarchy, `getInstance ["root"]`
returns a node whose instance id differs from the root's. -/
theorem getRoot_vs_getInstance_witness :
    initialHierarchy.WF ∧
    ((initialHierarchy.getInstance ["root"]).1).nid ≠
      initialHierarchy.getRoot.nid :=
  ⟨by unfold Hierarchy.WF; decide,
   (getRoot_vs_getInstance initialHierarchy
     (by unfold Hierarchy.WF; decide)).2.2.1 ["root"] (by decide)⟩

end Log4cplus
